import Mathlib

/-!
# Verification of the user-directory CRUD service

Shallow embedding of `src/backend/services/userService.ts` (the in-memory
Store) and of the two Next.js route files (`/api/users` and `/api/users/[id]`,
the API Layer), together with proofs of the behavioural claims about them.

The JavaScript array of users is modelled as a `List User`; the wall clock
(`Date.now()` and `new Date().toISOString()`) is passed in explicitly as a
`Nat` (milliseconds) and a `String` (ISO timestamp) wherever the source reads
it.  `Array.prototype.findIndex` (first index of a match, or `-1`) is modelled
by `findIndex` returning `Option Nat`; `Array.prototype.find` by `List.find?`;
`splice(i, 1)` by `List.eraseIdx`; element assignment by `List.set`.
-/

/-- One user record, mirroring the `User` interface of
`src/backend/types/user.ts`: all five fields are strings. -/
structure User where
  id : String
  name : String
  email : String
  role : String
  createdAt : String
deriving Repr, DecidableEq

/-- Payload for creation, mirroring `CreateUserDto`: `name`, `email`, `role`
are required. -/
structure CreateUserDto where
  name : String
  email : String
  role : String
deriving Repr, DecidableEq

/-- Payload for update, mirroring `UpdateUserDto`: every field is optional
(`name?`, `email?`, `role?`); `none` models an absent key. -/
structure UpdateUserDto where
  name : Option String := none
  email : Option String := none
  role : Option String := none
deriving Repr, DecidableEq

/-- JavaScript `Array.prototype.findIndex`: index of the first element
satisfying `p`, as `Option Nat` (`none` models the `-1` result). -/
def findIndex (p : α → Bool) : List α → Option Nat
  | [] => none
  | x :: xs => if p x then some 0 else (findIndex p xs).map (· + 1)

/-- `userService.getAll`: `return users;` — the whole collection, unchanged. -/
def userService.getAll (users : List User) : List User :=
  users

/-- `userService.getById`: `users.find((user) => user.id === id)` — the first
record whose `id` matches, or `undefined` (`none`). -/
def userService.getById (id : String) (users : List User) : Option User :=
  users.find? (fun user => user.id == id)

/-- `userService.create`: builds
`{ id: Date.now().toString(), ...data, createdAt: new Date().toISOString() }`,
pushes it onto the array and returns it.  `now` is the `Date.now()` reading,
`nowISO` the `toISOString()` reading at the moment of the call. -/
def userService.create (now : Nat) (nowISO : String) (data : CreateUserDto)
    (users : List User) : User × List User :=
  let newUser : User :=
    { id := toString now
      name := data.name
      email := data.email
      role := data.role
      createdAt := nowISO }
  (newUser, users ++ [newUser])

/-- The object spread `{ ...users[index], ...data }`: keys present in `data`
override, all other fields (in particular `id` and `createdAt`, which
`UpdateUserDto` cannot carry) are kept. -/
def mergeUpdate (u : User) (data : UpdateUserDto) : User :=
  { id := u.id
    name := data.name.getD u.name
    email := data.email.getD u.email
    role := data.role.getD u.role
    createdAt := u.createdAt }

/-- `userService.update`: `findIndex` by id; on `-1` return `null` and leave
the array alone; otherwise overwrite slot `index` with the merged record and
return it.  (The inner `none` branch is unreachable: `findIndex` always
returns an in-bounds index.) -/
def userService.update (id : String) (data : UpdateUserDto)
    (users : List User) : Option User × List User :=
  match findIndex (fun user => user.id == id) users with
  | none => (none, users)
  | some index =>
    match users[index]? with
    | none => (none, users)
    | some u =>
      let updated := mergeUpdate u data
      (some updated, users.set index updated)

/-- `userService.delete`: `findIndex` by id; on `-1` return `false`;
otherwise `splice(index, 1)` and return `true`. -/
def userService.delete (id : String) (users : List User) : Bool × List User :=
  match findIndex (fun user => user.id == id) users with
  | none => (false, users)
  | some index => (true, users.eraseIdx index)

/-! ## The API Layer -/

/-- A JSON response body, as produced by the four route handlers. -/
inductive RespBody where
  | user (u : User)
  | users (us : List User)
  | error (msg : String)
  | message (msg : String)
deriving Repr, DecidableEq

/-- An HTTP response: status code plus JSON body.  `NextResponse.json(x)`
without options carries status 200. -/
structure Resp where
  status : Nat
  body : RespBody
deriving Repr, DecidableEq

/-- The parsed JSON body of a `POST /users` request.  Each field is optional
because the wire format does not enforce `CreateUserDto`; `none` models an
absent key. -/
structure PostBody where
  name : Option String := none
  email : Option String := none
  role : Option String := none
deriving Repr, DecidableEq

/-- JavaScript truthiness test `!x` for an optional string field: `true`
exactly on a missing field (`undefined`) or the empty string. -/
def falsyStr : Option String → Bool
  | none => true
  | some s => s == ""

/-- `GET /api/users`: `NextResponse.json(userService.getAll())`, status 200. -/
def routeGET (users : List User) : Resp × List User :=
  (⟨200, RespBody.users (userService.getAll users)⟩, users)

/-- `POST /api/users`: `if (!body.name || !body.email || !body.role)` →
400 with the fixed error body and no Store call; otherwise
`userService.create(body)` and 201 with the new record. -/
def routePOST (now : Nat) (nowISO : String) (body : PostBody)
    (users : List User) : Resp × List User :=
  if falsyStr body.name || falsyStr body.email || falsyStr body.role then
    (⟨400, RespBody.error "Name, email, and role are required"⟩, users)
  else
    let r := userService.create now nowISO
      ⟨body.name.getD "", body.email.getD "", body.role.getD ""⟩ users
    (⟨201, RespBody.user r.1⟩, r.2)

/-- `PUT /api/users/:id`: delegate to `userService.update`; `null` → 404
`{error: 'User not found'}`, otherwise 200 with the updated record. -/
def routePUT (id : String) (body : UpdateUserDto)
    (users : List User) : Resp × List User :=
  let r := userService.update id body users
  match r.1 with
  | none => (⟨404, RespBody.error "User not found"⟩, r.2)
  | some u => (⟨200, RespBody.user u⟩, r.2)

/-- `DELETE /api/users/:id`: delegate to `userService.delete`; `false` → 404
`{error: 'User not found'}`, otherwise 200 with the confirmation message. -/
def routeDELETE (id : String) (users : List User) : Resp × List User :=
  let r := userService.delete id users
  if r.1 then
    (⟨200, RespBody.message "User deleted successfully"⟩, r.2)
  else
    (⟨404, RespBody.error "User not found"⟩, r.2)

/-! ## Seed state and operation sequences -/

/-- The three sample users the module initialises `users` with; `t0` stands
for the `new Date().toISOString()` reading at module load. -/
def seedUsers (t0 : String) : List User :=
  [ { id := "1", name := "John Doe", email := "john@example.com",
      role := "Admin", createdAt := t0 },
    { id := "2", name := "Jane Smith", email := "jane@example.com",
      role := "User", createdAt := t0 },
    { id := "3", name := "Bob Johnson", email := "bob@example.com",
      role := "User", createdAt := t0 } ]

/-- One Store operation, with the clock readings a `create` makes recorded in
the operation itself. -/
inductive Op where
  | create (now : Nat) (nowISO : String) (data : CreateUserDto)
  | update (id : String) (data : UpdateUserDto)
  | delete (id : String)
  | getAll
  | getById (id : String)
deriving Repr, DecidableEq

/-- Effect of one operation on the Store's state. -/
def applyOp (users : List User) : Op → List User
  | Op.create now nowISO data => (userService.create now nowISO data users).2
  | Op.update id data => (userService.update id data users).2
  | Op.delete id => (userService.delete id users).2
  | Op.getAll => users
  | Op.getById _ => users

/-- State after a whole sequence of operations. -/
def runOps (users : List User) (ops : List Op) : List User :=
  ops.foldl applyOp users

/-- The ids the `create` operations of a sequence will generate
(`Date.now().toString()` for each), in order. -/
def createIds : List Op → List String
  | [] => []
  | Op.create now _ _ :: rest => toString now :: createIds rest
  | _ :: rest => createIds rest

/-- Number of `create` operations in a sequence (each always succeeds). -/
def countCreates : List Op → Nat
  | [] => 0
  | Op.create _ _ _ :: rest => countCreates rest + 1
  | _ :: rest => countCreates rest

/-- Number of successful deletes (those returning `true`) along a run. -/
def countSuccDeletes : List User → List Op → Nat
  | _, [] => 0
  | s, op :: rest =>
    (match op with
     | Op.delete id => if (userService.delete id s).1 then 1 else 0
     | _ => 0) + countSuccDeletes (applyOp s op) rest

/-- `n`-fold repetition of the same `update` call, threading the state. -/
def repeatUpdate (id : String) (data : UpdateUserDto) :
    Nat → List User → List User
  | 0, s => s
  | n + 1, s => repeatUpdate id data n (userService.update id data s).2

/-! ## Helper lemmas about `findIndex` and list surgery -/

/-- `findIndex` misses exactly when no element satisfies the predicate. -/
theorem findIndex_eq_none_iff (p : α → Bool) (l : List α) :
    findIndex p l = none ↔ ∀ x ∈ l, p x = false := by
  induction l with
  | nil => simp [findIndex]
  | cons x xs ih =>
    by_cases h : p x
    · simp [findIndex, h]
    · simp only [findIndex, h, if_neg, Bool.false_eq_true, if_false,
        Option.map_eq_none', List.mem_cons]
      constructor
      · intro hnone y hy
        rcases hy with rfl | hy
        · exact Bool.eq_false_iff.mpr h
        · exact (ih.mp hnone) y hy
      · intro hall
        exact ih.mpr fun y hy => hall y (Or.inr hy)

/-- A hit of `findIndex` is an in-bounds index whose element satisfies the
predicate. -/
theorem findIndex_eq_some (p : α → Bool) (l : List α) (i : Nat)
    (h : findIndex p l = some i) : ∃ x, l[i]? = some x ∧ p x = true := by
  induction l generalizing i with
  | nil => simp [findIndex] at h
  | cons x xs ih =>
    by_cases hx : p x
    · simp only [findIndex, hx, if_true, Option.some.injEq] at h
      subst h
      exact ⟨x, by simp, hx⟩
    · simp only [findIndex, hx, Bool.false_eq_true, if_false,
        Option.map_eq_some'] at h
      rcases h with ⟨k, hk, rfl⟩
      rcases ih k hk with ⟨y, hy, hpy⟩
      exact ⟨y, by simpa using hy, hpy⟩

/-- The element sitting at the index `findIndex` returns is exactly what
`find?` returns: both take the first match. -/
theorem find?_of_findIndex (p : α → Bool) (l : List α) (i : Nat) (x : α)
    (hi : findIndex p l = some i) (hx : l[i]? = some x) :
    l.find? p = some x := by
  induction l generalizing i with
  | nil => simp [findIndex] at hi
  | cons y ys ih =>
    by_cases hy : p y
    · simp only [findIndex, hy, if_true, Option.some.injEq] at hi
      subst hi
      simp only [List.getElem?_cons_zero, Option.some.injEq] at hx
      subst hx
      simp [List.find?_cons, hy]
    · simp only [findIndex, hy, Bool.false_eq_true, if_false,
        Option.map_eq_some'] at hi
      rcases hi with ⟨k, hk, rfl⟩
      simp only [List.getElem?_cons_succ] at hx
      simp only [List.find?_cons, hy]
      exact ih k hk hx

/-- Writing back the value already stored at an index is a no-op. -/
theorem set_getElem?_self (l : List α) (i : Nat) (a : α)
    (h : l[i]? = some a) : l.set i a = l := by
  induction l generalizing i with
  | nil => simp at h
  | cons x xs ih =>
    cases i with
    | zero =>
      simp only [List.getElem?_cons_zero, Option.some.injEq] at h
      subst h
      simp
    | succ n =>
      simp only [List.getElem?_cons_succ] at h
      simp [List.set_cons_succ, ih n h]

/-- `update` never changes the sequence of ids: it overwrites one slot with
a record carrying the same `id`. -/
theorem update_snd_map_id (id : String) (d : UpdateUserDto) (s : List User) :
    ((userService.update id d s).2).map User.id = s.map User.id := by
  unfold userService.update
  cases hfi : findIndex (fun user => user.id == id) s with
  | none => rfl
  | some i =>
    cases hg : s[i]? with
    | none => simp [hg]
    | some u =>
      simp only [hg]
      rw [List.map_set]
      have hid : (mergeUpdate u d).id = u.id := rfl
      rw [hid]
      apply set_getElem?_self
      rw [List.getElem?_map, hg]
      rfl

/-- `update` never changes the number of records. -/
theorem update_snd_length (id : String) (d : UpdateUserDto) (s : List User) :
    ((userService.update id d s).2).length = s.length := by
  have h := congrArg List.length (update_snd_map_id id d s)
  simpa using h

/-- The state after a `delete` is a sublist of the state before. -/
theorem delete_snd_sublist (id : String) (s : List User) :
    ((userService.delete id s).2).Sublist s := by
  unfold userService.delete
  cases findIndex (fun user => user.id == id) s with
  | none => exact List.Sublist.refl s
  | some i => exact List.eraseIdx_sublist s i

/-- After erasing the first record matching an id from a collection whose
ids are pairwise distinct, no record with that id remains. -/
theorem find?_eraseIdx_of_nodup_ids (id : String) (l : List User) (i : Nat)
    (hnd : (l.map User.id).Nodup)
    (hi : findIndex (fun u => u.id == id) l = some i) :
    (l.eraseIdx i).find? (fun u => u.id == id) = none := by
  induction l generalizing i with
  | nil => simp [findIndex] at hi
  | cons x xs ih =>
    simp only [List.map_cons, List.nodup_cons] at hnd
    by_cases hx : x.id == id
    · simp only [findIndex, hx, if_true, Option.some.injEq] at hi
      subst hi
      rw [List.eraseIdx_cons_zero, List.find?_eq_none]
      intro u hu hpu
      have hxid : x.id = id := by
        have := hx
        exact eq_of_beq this
      have huid : u.id = id := eq_of_beq hpu
      exact hnd.1 (List.mem_map.mpr ⟨u, hu, by rw [huid, hxid]⟩)
    · simp only [findIndex, hx, Bool.false_eq_true, if_false,
        Option.map_eq_some'] at hi
      rcases hi with ⟨k, hk, rfl⟩
      rw [List.eraseIdx_cons_succ, List.find?_cons]
      simp only [hx]
      exact ih k hnd.2 hk

/-! ## The uniqueness invariant for operation sequences -/

/-- Generalised uniqueness invariant: if the ids the upcoming creates will
generate, together with an over-approximation `acc` of the ids already in the
state, are pairwise distinct, then the state ids stay pairwise distinct
throughout the run. -/
theorem runOps_ids_nodup (ops : List Op) :
    ∀ (acc : List String) (s : List User),
    (acc ++ createIds ops).Nodup →
    (∀ u ∈ s, u.id ∈ acc) →
    (s.map User.id).Nodup →
    ((runOps s ops).map User.id).Nodup := by
  induction ops with
  | nil =>
    intro _ s _ _ hnd
    exact hnd
  | cons op rest ih =>
    intro acc s hacc hsub hnd
    have hrun : runOps s (op :: rest) = runOps (applyOp s op) rest := rfl
    rw [hrun]
    cases op with
    | create now iso dta =>
      have hcid : createIds (Op.create now iso dta :: rest)
          = toString now :: createIds rest := rfl
      rw [hcid] at hacc
      have hnotacc : toString now ∉ acc := by
        intro hin
        exact List.disjoint_of_nodup_append hacc hin (List.mem_cons_self _ _)
      have happ : applyOp s (Op.create now iso dta)
          = s ++ [(userService.create now iso dta s).1] := rfl
      rw [happ]
      apply ih (acc ++ [toString now])
      · have : acc ++ [toString now] ++ createIds rest
            = acc ++ toString now :: createIds rest := by
          simp [List.append_assoc]
        rw [this]
        exact hacc
      · intro u hu
        rcases List.mem_append.mp hu with hl | hr
        · exact List.mem_append_left _ (hsub u hl)
        · rcases List.mem_singleton.mp hr with rfl
          exact List.mem_append_right _ (List.mem_singleton.mpr rfl)
      · rw [List.map_append]
        rw [List.nodup_append]
        refine ⟨hnd, List.nodup_singleton _, ?_⟩
        intro x hx hx'
        rcases List.mem_map.mp hx with ⟨u, hu, rfl⟩
        have h : u.id = toString now := List.mem_singleton.mp hx'
        exact hnotacc (h ▸ hsub u hu)
    | update uid dta =>
      apply ih acc
      · exact hacc
      · intro u hu
        have hmem : u.id ∈ ((userService.update uid dta s).2).map User.id :=
          List.mem_map.mpr ⟨u, hu, rfl⟩
        rw [update_snd_map_id] at hmem
        rcases List.mem_map.mp hmem with ⟨v, hv, hveq⟩
        exact hveq ▸ hsub v hv
      · show (((userService.update uid dta s).2).map User.id).Nodup
        rw [update_snd_map_id]
        exact hnd
    | delete did =>
      apply ih acc
      · exact hacc
      · intro u hu
        exact hsub u ((delete_snd_sublist did s).subset hu)
      · exact List.Nodup.sublist
          (List.Sublist.map User.id (delete_snd_sublist did s)) hnd
    | getAll => exact ih acc s hacc hsub hnd
    | getById _ => exact ih acc s hacc hsub hnd

/-! ## Claims -/

/-- Claim C1, counterexample: two creates observing the same `Date.now()`
reading (here 5) produce two live records with the same id "5", so the
pairwise-distinctness of live ids fails on the code as stated. -/
theorem claim1_counterexample :
    ¬ ((runOps (seedUsers "t0")
        [Op.create 5 "t1" ⟨"A", "a@a", "User"⟩,
         Op.create 5 "t2" ⟨"B", "b@b", "User"⟩]).map User.id).Nodup := by
  decide

/-- Claim C1, amended: for every sequence of Store operations starting from
the seed state, the ids of all live records are pairwise distinct at all
times (the statement quantifies over all sequences, hence over every prefix),
provided the ids generated by the creates of the sequence — the decimal
strings of their `Date.now()` readings — are pairwise distinct and distinct
from the seed ids "1", "2", "3". -/
theorem claim1_amended_unique_ids (t0 : String) (ops : List Op)
    (h : (["1", "2", "3"] ++ createIds ops).Nodup) :
    ((runOps (seedUsers t0) ops).map User.id).Nodup := by
  apply runOps_ids_nodup ops ["1", "2", "3"] (seedUsers t0) h
  · intro u hu
    simp only [seedUsers, List.mem_cons, List.not_mem_nil, or_false] at hu
    rcases hu with rfl | rfl | rfl <;> simp
  · have hmap : (seedUsers t0).map User.id = ["1", "2", "3"] := rfl
    rw [hmap]
    decide

/-- Claim C1, witness: one create with timestamp 4 keeps all ids distinct. -/
theorem claim1_witness :
    ((runOps (seedUsers "t0")
        [Op.create 4 "t1" ⟨"Ann", "ann@x.com", "User"⟩]).map User.id).Nodup :=
  claim1_amended_unique_ids "t0"
    [Op.create 4 "t1" ⟨"Ann", "ann@x.com", "User"⟩] (by decide)

/-- Claim C2: `POST /users` answers 400 with body
`{error: "Name, email, and role are required"}` and an unchanged collection
whenever `name`, `email` or `role` is missing or empty, and otherwise answers
201 with the record `userService.create` built and appended. -/
theorem claim2_post_validation (now : Nat) (nowISO : String) (b : PostBody)
    (s : List User) :
    ((falsyStr b.name || falsyStr b.email || falsyStr b.role) = true →
      routePOST now nowISO b s
        = (⟨400, RespBody.error "Name, email, and role are required"⟩, s))
    ∧ ((falsyStr b.name || falsyStr b.email || falsyStr b.role) = false →
      routePOST now nowISO b s
        = (⟨201, RespBody.user (userService.create now nowISO
              ⟨b.name.getD "", b.email.getD "", b.role.getD ""⟩ s).1⟩,
           (userService.create now nowISO
              ⟨b.name.getD "", b.email.getD "", b.role.getD ""⟩ s).2)) := by
  constructor
  · intro h
    simp [routePOST, h]
  · intro h
    simp [routePOST, h]

/-- Claim C2, witness: the spec's end-to-end example — posting an empty name
yields 400 with the fixed error body and leaves the seed collection as is. -/
theorem claim2_witness :
    routePOST 7 "t" ⟨some "", some "a@b.com", some "User"⟩ (seedUsers "t0")
      = (⟨400, RespBody.error "Name, email, and role are required"⟩,
         seedUsers "t0") :=
  (claim2_post_validation 7 "t" ⟨some "", some "a@b.com", some "User"⟩
    (seedUsers "t0")).1 (by decide)

/-- Claim C3: when a record with the given id is found (at the first matching
index `i`, holding record `u`), `update` returns the merged record and writes
it back at the same slot; the merge keeps `id` and `createdAt`, keeps every
field whose key is absent from the partial, every other slot of the
collection is untouched, and the empty partial changes nothing. -/
theorem claim3_update_frame (id : String) (d : UpdateUserDto) (s : List User)
    (i : Nat) (u : User)
    (hfi : findIndex (fun v => v.id == id) s = some i)
    (hg : s[i]? = some u) :
    userService.update id d s
        = (some (mergeUpdate u d), s.set i (mergeUpdate u d))
    ∧ (mergeUpdate u d).id = u.id
    ∧ (mergeUpdate u d).createdAt = u.createdAt
    ∧ (d.name = none → (mergeUpdate u d).name = u.name)
    ∧ (d.email = none → (mergeUpdate u d).email = u.email)
    ∧ (d.role = none → (mergeUpdate u d).role = u.role)
    ∧ (∀ j, j ≠ i → ((userService.update id d s).2)[j]? = s[j]?)
    ∧ mergeUpdate u {} = u := by
  have hupd : userService.update id d s
      = (some (mergeUpdate u d), s.set i (mergeUpdate u d)) := by
    unfold userService.update
    rw [hfi]
    simp only [hg]
  refine ⟨hupd, rfl, rfl, ?_, ?_, ?_, ?_, rfl⟩
  · intro h
    simp [mergeUpdate, h]
  · intro h
    simp [mergeUpdate, h]
  · intro h
    simp [mergeUpdate, h]
  · intro j hj
    rw [hupd]
    exact List.getElem?_set_ne (Ne.symm hj)

/-- Claim C3, witness: updating the seed record "2" with a partial holding
only a new name merges into slot 1 and leaves the rest alone. -/
theorem claim3_witness :
    userService.update "2" ⟨some "X", none, none⟩ (seedUsers "t0")
      = (some (mergeUpdate
            ⟨"2", "Jane Smith", "jane@example.com", "User", "t0"⟩
            ⟨some "X", none, none⟩),
         (seedUsers "t0").set 1 (mergeUpdate
            ⟨"2", "Jane Smith", "jane@example.com", "User", "t0"⟩
            ⟨some "X", none, none⟩)) :=
  (claim3_update_frame "2" ⟨some "X", none, none⟩ (seedUsers "t0") 1
    ⟨"2", "Jane Smith", "jane@example.com", "User", "t0"⟩
    (by decide) (by decide)).1

/-- Claim C4, counterexample: if the collection already holds a record whose
id equals the generated one ("5", the `Date.now()` reading), `getById` after
`create` returns that earlier record, not the one `create` returned. -/
theorem claim4_counterexample :
    ¬ (userService.getById
        (userService.create 5 "t1" ⟨"Y", "y@y", "User"⟩
          [⟨"5", "X", "x@x", "User", "t0"⟩]).1.id
        (userService.create 5 "t1" ⟨"Y", "y@y", "User"⟩
          [⟨"5", "X", "x@x", "User", "t0"⟩]).2
      = some (userService.create 5 "t1" ⟨"Y", "y@y", "User"⟩
          [⟨"5", "X", "x@x", "User", "t0"⟩]).1) := by
  decide

/-- Claim C4, amended: for every creation input and every Store state in
which no live record already carries the id `create` is about to generate
(the decimal string of the `Date.now()` reading), `create` followed
immediately by `getById` on the returned id yields exactly the record
`create` returned. -/
theorem claim4_amended_create_then_get (now : Nat) (nowISO : String)
    (d : CreateUserDto) (s : List User)
    (h : ∀ u ∈ s, u.id ≠ toString now) :
    userService.getById (userService.create now nowISO d s).1.id
        (userService.create now nowISO d s).2
      = some (userService.create now nowISO d s).1 := by
  have h1 : (userService.create now nowISO d s).1.id = toString now := rfl
  have h2 : (userService.create now nowISO d s).2
      = s ++ [(userService.create now nowISO d s).1] := rfl
  rw [userService.getById, h1, h2, List.find?_append]
  have hnone : s.find? (fun user => user.id == toString now) = none := by
    rw [List.find?_eq_none]
    intro x hx
    simp only [Bool.not_eq_true]
    exact beq_eq_false_iff_ne.mpr (h x hx)
  have h3 : ((userService.create now nowISO d s).1.id == toString now)
      = true := by
    rw [h1]
    exact beq_self_eq_true _
  rw [hnone]
  simp [List.find?_cons, h3]

/-- Claim C4, witness: creating against the seed state with timestamp 4 and
reading the returned id back yields the created record. -/
theorem claim4_witness :
    userService.getById
        (userService.create 4 "t1" ⟨"Ann", "ann@x.com", "User"⟩
          (seedUsers "t0")).1.id
        (userService.create 4 "t1" ⟨"Ann", "ann@x.com", "User"⟩
          (seedUsers "t0")).2
      = some (userService.create 4 "t1" ⟨"Ann", "ann@x.com", "User"⟩
          (seedUsers "t0")).1 :=
  claim4_amended_create_then_get 4 "t1" ⟨"Ann", "ann@x.com", "User"⟩
    (seedUsers "t0") (by decide)

/-- Claim C5: on a state holding no record with the given id, `update`
returns the absent indicator (`null`) with the collection exactly unchanged,
and repeating the call any number of times leaves the state unchanged (hence
returns the absent indicator every time). -/
theorem claim5_update_absent (id : String) (d : UpdateUserDto)
    (s : List User) (h : ∀ u ∈ s, u.id ≠ id) :
    userService.update id d s = (none, s)
    ∧ ∀ n, repeatUpdate id d n s = s := by
  have hfi : findIndex (fun u => u.id == id) s = none := by
    rw [findIndex_eq_none_iff]
    intro x hx
    exact beq_eq_false_iff_ne.mpr (h x hx)
  have hupd : userService.update id d s = (none, s) := by
    unfold userService.update
    rw [hfi]
  refine ⟨hupd, ?_⟩
  intro n
  induction n with
  | zero => rfl
  | succ k ihk =>
    show repeatUpdate id d k (userService.update id d s).2 = s
    rw [hupd]
    exact ihk

/-- Claim C5, witness: updating the unknown id "9" on the seed state is
rejected with `null` and no mutation. -/
theorem claim5_witness :
    userService.update "9" ⟨some "Z", none, none⟩ (seedUsers "t0")
      = (none, seedUsers "t0") :=
  (claim5_update_absent "9" ⟨some "Z", none, none⟩ (seedUsers "t0")
    (by decide)).1

/-- A defined slot of a list is one of its members. -/
theorem getElem?_some_mem (l : List α) (i : Nat) (a : α)
    (h : l[i]? = some a) : a ∈ l := by
  rcases List.getElem?_eq_some.mp h with ⟨hlt, rfl⟩
  exact List.getElem_mem hlt

/-- Claim C6, counterexample: on a state holding two records with id "1",
`delete "1"` returns `true` yet `getById "1"` still finds a record
afterwards, refuting the claim's consequence for arbitrary states. -/
theorem claim6_counterexample :
    (userService.delete "1"
      [⟨"1", "A", "a", "User", "t"⟩, ⟨"1", "B", "b", "User", "t"⟩]).1 = true
    ∧ ¬ (userService.getById "1"
        (userService.delete "1"
          [⟨"1", "A", "a", "User", "t"⟩,
           ⟨"1", "B", "b", "User", "t"⟩]).2 = none) := by
  decide

/-- Claim C6, amended: on every state, `delete` returns `true` exactly when a
record with the id is present, removes precisely the first matching record
when it does, and leaves the state unchanged when it returns `false`; the
consequence — `getById` then yields absent and a second `delete` returns
`false` — holds on states whose live ids are pairwise distinct. -/
theorem claim6_amended_delete (id : String) (s : List User) :
    (((userService.delete id s).1 = true) ↔ ∃ u ∈ s, u.id = id)
    ∧ ((userService.delete id s).1 = false → (userService.delete id s).2 = s)
    ∧ ((userService.delete id s).1 = true →
        ∃ i u, findIndex (fun v => v.id == id) s = some i
          ∧ s[i]? = some u ∧ u.id = id
          ∧ (userService.delete id s).2 = s.eraseIdx i)
    ∧ ((s.map User.id).Nodup → (userService.delete id s).1 = true →
        userService.getById id (userService.delete id s).2 = none
        ∧ (userService.delete id ((userService.delete id s).2)).1 = false) := by
  cases hfi : findIndex (fun v => v.id == id) s with
  | none =>
    have hd : userService.delete id s = (false, s) := by
      unfold userService.delete
      rw [hfi]
    rw [hd]
    refine ⟨?_, fun _ => rfl, ?_, ?_⟩
    · constructor
      · intro h
        simp at h
      · rintro ⟨u, hu, huid⟩
        have hne := (findIndex_eq_none_iff _ s).mp hfi u hu
        exact absurd huid (beq_eq_false_iff_ne.mp hne)
    · intro h
      simp at h
    · intro _ h
      simp at h
  | some i =>
    obtain ⟨u, hu, hpu⟩ := findIndex_eq_some _ s i hfi
    have huid : u.id = id := eq_of_beq hpu
    have hd : userService.delete id s = (true, s.eraseIdx i) := by
      unfold userService.delete
      rw [hfi]
    rw [hd]
    refine ⟨?_, ?_, ?_, ?_⟩
    · constructor
      · intro _
        exact ⟨u, getElem?_some_mem s i u hu, huid⟩
      · intro _
        rfl
    · intro h
      simp at h
    · intro _
      exact ⟨i, u, rfl, hu, huid, rfl⟩
    · intro hnd _
      have hfind := find?_eraseIdx_of_nodup_ids id s i hnd hfi
      constructor
      · rw [userService.getById]
        exact hfind
      · have hfi2 : findIndex (fun v => v.id == id) (s.eraseIdx i)
            = none := by
          rw [findIndex_eq_none_iff]
          intro x hx
          have hnx := List.find?_eq_none.mp hfind x hx
          simp only [Bool.not_eq_true] at hnx
          exact hnx
        unfold userService.delete
        rw [hfi2]

/-- Claim C6, witness: deleting seed id "2" then reading it back yields
absent, and a second delete reports `false`. -/
theorem claim6_witness :
    userService.getById "2" (userService.delete "2" (seedUsers "t0")).2 = none
    ∧ (userService.delete "2"
        ((userService.delete "2" (seedUsers "t0")).2)).1 = false :=
  (claim6_amended_delete "2" (seedUsers "t0")).2.2.2 (by decide) (by decide)

/-- Claim C7: `getAll` returns the collection itself (read-only, insertion
order preserved), `create` appends its new record at the end, and after any
sequence of operations on the empty collection the number of records listed
plus the number of successful deletes equals the number of creates — i.e.
`listAll` returns exactly N − M records. -/
theorem claim7_listAll :
    (∀ s, userService.getAll s = s)
    ∧ (∀ now nowISO d s, (userService.create now nowISO d s).2
        = userService.getAll s ++ [(userService.create now nowISO d s).1])
    ∧ (∀ ops, (userService.getAll (runOps [] ops)).length
        + countSuccDeletes [] ops = countCreates ops) := by
  refine ⟨fun s => rfl, fun now iso d s => rfl, ?_⟩
  have key : ∀ ops (s : List User),
      (runOps s ops).length + countSuccDeletes s ops
        = s.length + countCreates ops := by
    intro ops
    induction ops with
    | nil =>
      intro s
      simp [runOps, countSuccDeletes, countCreates]
    | cons op rest ih =>
      intro s
      have hrun : runOps s (op :: rest) = runOps (applyOp s op) rest := rfl
      rw [hrun]
      cases op with
      | create now iso dta =>
        have h1 : countSuccDeletes s (Op.create now iso dta :: rest)
            = countSuccDeletes (applyOp s (Op.create now iso dta)) rest := by
          simp [countSuccDeletes]
        have h3 : (applyOp s (Op.create now iso dta)).length
            = s.length + 1 := by
          simp [applyOp, userService.create]
        rw [h1, ih (applyOp s (Op.create now iso dta)), h3]
        have h2 : countCreates (Op.create now iso dta :: rest)
            = countCreates rest + 1 := rfl
        rw [h2]
        omega
      | update uid dta =>
        have h1 : countSuccDeletes s (Op.update uid dta :: rest)
            = countSuccDeletes (applyOp s (Op.update uid dta)) rest := by
          simp [countSuccDeletes]
        have h3 : (applyOp s (Op.update uid dta)).length = s.length :=
          update_snd_length uid dta s
        rw [h1, ih (applyOp s (Op.update uid dta)), h3]
        rfl
      | delete did =>
        have h2 : countCreates (Op.delete did :: rest)
            = countCreates rest := rfl
        cases hfi : findIndex (fun u => u.id == did) s with
        | none =>
          have hd : userService.delete did s = (false, s) := by
            unfold userService.delete
            rw [hfi]
          have h1 : countSuccDeletes s (Op.delete did :: rest)
              = countSuccDeletes (applyOp s (Op.delete did)) rest := by
            simp [countSuccDeletes, hd]
          have happ : applyOp s (Op.delete did) = s := by
            simp [applyOp, hd]
          rw [h1, ih (applyOp s (Op.delete did)), happ, h2]
        | some i =>
          obtain ⟨x, hx, _⟩ := findIndex_eq_some _ s i hfi
          have hilt : i < s.length := by
            rcases List.getElem?_eq_some.mp hx with ⟨hlt, _⟩
            exact hlt
          have hd : userService.delete did s = (true, s.eraseIdx i) := by
            unfold userService.delete
            rw [hfi]
          have h1 : countSuccDeletes s (Op.delete did :: rest)
              = 1 + countSuccDeletes (applyOp s (Op.delete did)) rest := by
            simp [countSuccDeletes, hd]
          have happ : applyOp s (Op.delete did) = s.eraseIdx i := by
            simp [applyOp, hd]
          have hlen : (s.eraseIdx i).length = s.length - 1 := by
            rw [List.length_eraseIdx]
            simp [hilt]
          rw [h1, happ, h2]
          have hih := ih (s.eraseIdx i)
          omega
      | getAll =>
        have h1 : countSuccDeletes s (Op.getAll :: rest)
            = countSuccDeletes (applyOp s Op.getAll) rest := by
          simp [countSuccDeletes]
        rw [h1, ih (applyOp s Op.getAll)]
        rfl
      | getById gid =>
        have h1 : countSuccDeletes s (Op.getById gid :: rest)
            = countSuccDeletes (applyOp s (Op.getById gid)) rest := by
          simp [countSuccDeletes]
        rw [h1, ih (applyOp s (Op.getById gid))]
        rfl
  intro ops
  simpa [userService.getAll] using key ops []

/-- Claim C8: `PUT /users/:id` and `DELETE /users/:id` answer 404 with an
error body and an unchanged collection when no record carries the id; when
one does, `PUT` answers 200 with the updated record and `DELETE` answers 200
with the confirmation message. -/
theorem claim8_routes_not_found (id : String) (body : UpdateUserDto)
    (s : List User) :
    ((∀ u ∈ s, u.id ≠ id) →
        routePUT id body s = (⟨404, RespBody.error "User not found"⟩, s)
        ∧ routeDELETE id s = (⟨404, RespBody.error "User not found"⟩, s))
    ∧ ((∃ u ∈ s, u.id = id) →
        ((routePUT id body s).1.status = 200
          ∧ ∃ u, (userService.update id body s).1 = some u
              ∧ (routePUT id body s).1.body = RespBody.user u
              ∧ (routePUT id body s).2 = (userService.update id body s).2)
        ∧ routeDELETE id s
            = (⟨200, RespBody.message "User deleted successfully"⟩,
               (userService.delete id s).2)) := by
  constructor
  · intro h
    have hfi : findIndex (fun u => u.id == id) s = none := by
      rw [findIndex_eq_none_iff]
      intro x hx
      exact beq_eq_false_iff_ne.mpr (h x hx)
    have hupd : userService.update id body s = (none, s) := by
      unfold userService.update
      rw [hfi]
    have hdel : userService.delete id s = (false, s) := by
      unfold userService.delete
      rw [hfi]
    constructor
    · simp [routePUT, hupd]
    · simp [routeDELETE, hdel]
  · rintro ⟨u0, hu0, hid0⟩
    have hfi_ne : findIndex (fun u => u.id == id) s ≠ none := by
      intro hno
      have hne := (findIndex_eq_none_iff _ s).mp hno u0 hu0
      exact absurd hid0 (beq_eq_false_iff_ne.mp hne)
    cases hfi : findIndex (fun u => u.id == id) s with
    | none => exact absurd hfi hfi_ne
    | some i =>
      obtain ⟨u, hu, _⟩ := findIndex_eq_some _ s i hfi
      have hupd : userService.update id body s
          = (some (mergeUpdate u body), s.set i (mergeUpdate u body)) := by
        unfold userService.update
        rw [hfi]
        simp only [hu]
      have hdel : userService.delete id s = (true, s.eraseIdx i) := by
        unfold userService.delete
        rw [hfi]
      refine ⟨⟨?_, mergeUpdate u body, by rw [hupd], ?_, ?_⟩, ?_⟩
      · simp [routePUT, hupd]
      · simp [routePUT, hupd]
      · simp [routePUT, hupd]
      · simp [routeDELETE, hdel]

/-- Claim C8, witness: the unknown id "9" makes both routes answer 404 and
leave the seed collection unchanged. -/
theorem claim8_witness :
    routePUT "9" ⟨some "X", none, none⟩ (seedUsers "t0")
        = (⟨404, RespBody.error "User not found"⟩, seedUsers "t0")
    ∧ routeDELETE "9" (seedUsers "t0")
        = (⟨404, RespBody.error "User not found"⟩, seedUsers "t0") :=
  (claim8_routes_not_found "9" ⟨some "X", none, none⟩
    (seedUsers "t0")).1 (by decide)

/-- Claim C9: with two records sharing an id (positions `i < j`, `i` being
the first match), `getById` returns the earliest-inserted match, `update`
rewrites only slot `i`, and `delete` removes exactly slot `i`, returns
`true`, and the later duplicate stays live. -/
theorem claim9_duplicate_ids (id : String) (s : List User) (i j : Nat)
    (u v : User) (d : UpdateUserDto)
    (hfi : findIndex (fun w => w.id == id) s = some i)
    (hu : s[i]? = some u)
    (hij : i < j) (hv : s[j]? = some v) (hvid : v.id = id) :
    userService.getById id s = some u
    ∧ userService.update id d s
        = (some (mergeUpdate u d), s.set i (mergeUpdate u d))
    ∧ userService.delete id s = (true, s.eraseIdx i)
    ∧ v ∈ (userService.delete id s).2 := by
  have hget : userService.getById id s = some u := by
    rw [userService.getById]
    exact find?_of_findIndex _ s i u hfi hu
  have hupd : userService.update id d s
      = (some (mergeUpdate u d), s.set i (mergeUpdate u d)) := by
    unfold userService.update
    rw [hfi]
    simp only [hu]
  have hdel : userService.delete id s = (true, s.eraseIdx i) := by
    unfold userService.delete
    rw [hfi]
  refine ⟨hget, hupd, hdel, ?_⟩
  rw [hdel]
  have hj' : (s.eraseIdx i)[j - 1]? = some v := by
    rw [List.getElem?_eraseIdx]
    have hnlt : ¬ (j - 1 < i) := by omega
    rw [if_neg hnlt]
    have hjj : j - 1 + 1 = j := by omega
    rw [hjj]
    exact hv
  exact getElem?_some_mem _ _ _ hj'

/-- Claim C9, witness: two records with id "7"; all four conclusions at the
concrete state. -/
theorem claim9_witness :
    userService.getById "7"
        [⟨"7", "A", "a@a", "User", "t"⟩, ⟨"7", "B", "b@b", "User", "t"⟩]
      = some ⟨"7", "A", "a@a", "User", "t"⟩
    ∧ userService.update "7" ⟨some "N", none, none⟩
        [⟨"7", "A", "a@a", "User", "t"⟩, ⟨"7", "B", "b@b", "User", "t"⟩]
      = (some (mergeUpdate ⟨"7", "A", "a@a", "User", "t"⟩
            ⟨some "N", none, none⟩),
         [⟨"7", "A", "a@a", "User", "t"⟩,
          ⟨"7", "B", "b@b", "User", "t"⟩].set 0
           (mergeUpdate ⟨"7", "A", "a@a", "User", "t"⟩
            ⟨some "N", none, none⟩))
    ∧ userService.delete "7"
        [⟨"7", "A", "a@a", "User", "t"⟩, ⟨"7", "B", "b@b", "User", "t"⟩]
      = (true,
         [⟨"7", "A", "a@a", "User", "t"⟩,
          ⟨"7", "B", "b@b", "User", "t"⟩].eraseIdx 0)
    ∧ (⟨"7", "B", "b@b", "User", "t"⟩ : User) ∈
        (userService.delete "7"
          [⟨"7", "A", "a@a", "User", "t"⟩,
           ⟨"7", "B", "b@b", "User", "t"⟩]).2 :=
  claim9_duplicate_ids "7"
    [⟨"7", "A", "a@a", "User", "t"⟩, ⟨"7", "B", "b@b", "User", "t"⟩]
    0 1 ⟨"7", "A", "a@a", "User", "t"⟩ ⟨"7", "B", "b@b", "User", "t"⟩
    ⟨some "N", none, none⟩
    (by decide) (by decide) (by decide) (by decide) (by decide)

/-- Claim C10: neither `update` nor `PUT` validates field contents: on any
record present in the collection, a partial carrying an empty `name`
succeeds, the endpoint answers 200, the response and the stored slot hold
the record with `name` equal to the empty string. -/
theorem claim10_no_update_validation (id : String) (s : List User)
    (i : Nat) (u : User) (e r : Option String)
    (hfi : findIndex (fun v => v.id == id) s = some i)
    (hu : s[i]? = some u) :
    (routePUT id ⟨some "", e, r⟩ s).1.status = 200
    ∧ (routePUT id ⟨some "", e, r⟩ s).1.body
        = RespBody.user (mergeUpdate u ⟨some "", e, r⟩)
    ∧ (mergeUpdate u ⟨some "", e, r⟩).name = ""
    ∧ ((routePUT id ⟨some "", e, r⟩ s).2)[i]?
        = some (mergeUpdate u ⟨some "", e, r⟩) := by
  have hupd : userService.update id ⟨some "", e, r⟩ s
      = (some (mergeUpdate u ⟨some "", e, r⟩),
         s.set i (mergeUpdate u ⟨some "", e, r⟩)) := by
    unfold userService.update
    rw [hfi]
    simp only [hu]
  have hlt : i < s.length := by
    rcases List.getElem?_eq_some.mp hu with ⟨hlt, _⟩
    exact hlt
  refine ⟨?_, ?_, rfl, ?_⟩
  · simp [routePUT, hupd]
  · simp [routePUT, hupd]
  · simp only [routePUT, hupd]
    exact List.getElem?_set_eq_of_lt _ hlt

/-- Claim C10, witness: blanking the name of seed record "2" through the
endpoint answers 200 and stores the empty name. -/
theorem claim10_witness :
    (routePUT "2" ⟨some "", none, none⟩ (seedUsers "t0")).1.status = 200
    ∧ (routePUT "2" ⟨some "", none, none⟩ (seedUsers "t0")).1.body
        = RespBody.user (mergeUpdate
            ⟨"2", "Jane Smith", "jane@example.com", "User", "t0"⟩
            ⟨some "", none, none⟩)
    ∧ (mergeUpdate ⟨"2", "Jane Smith", "jane@example.com", "User", "t0"⟩
        ⟨some "", none, none⟩).name = ""
    ∧ ((routePUT "2" ⟨some "", none, none⟩ (seedUsers "t0")).2)[1]?
        = some (mergeUpdate
            ⟨"2", "Jane Smith", "jane@example.com", "User", "t0"⟩
            ⟨some "", none, none⟩) :=
  claim10_no_update_validation "2" (seedUsers "t0") 1
    ⟨"2", "Jane Smith", "jane@example.com", "User", "t0"⟩ none none
    (by decide) (by decide)
